import Mathlib

/-!
Shallow embedding of the Bro-log parser (package `parse`, file `parse.go`).

Modelling conventions:
- A file's content is its list of lines, as produced by `bufio.Scanner`
  (newlines stripped).  A file that fails to open is `none`.
- Go string indexing and slicing is byte-based; inputs here are ASCII, so we
  model a Go string by a Lean `String` and index its character list.  Go
  slicing `s[i:j]` panics when the bound exceeds `len(s)`; we return `none`
  (`Option`) for that runtime panic.
- The channel `p.Row` is modelled by its existence flag (`rowInit`, i.e.
  `p.Row != nil`) plus the list of values pushed during a run; `close(p.Row)`
  is recorded by a boolean.  A run that panics mid-scan records `panicked`.
- `Parse` functions (the optional transform) return `([]string, error)`;
  a failing call is modelled by `none`.
-/

/-- Outcome of a Go call that returns `(value, error)` and may also panic
at runtime: `ok` a normal return, `err` a non-nil error, `oob` an
index-out-of-range panic. -/
inductive GoRes (α : Type) where
  | ok : α → GoRes α
  | err : String → GoRes α
  | oob : GoRes α
deriving DecidableEq

/-- Go `s[i]`: the byte (here: character) at index `i`; `none` models the
index-out-of-range panic. -/
def goIndex (s : String) (i : Nat) : Option Char :=
  s.data.get? i

/-- Go `s[0:j]`: panics (`none`) when `j > len(s)`. -/
def goSliceTo (s : String) (j : Nat) : Option String :=
  if j ≤ s.data.length then some (String.mk (s.data.take j)) else none

/-- Go `s[i:]`: panics (`none`) when `i > len(s)`. -/
def goSliceFrom (s : String) (i : Nat) : Option String :=
  if i ≤ s.data.length then some (String.mk (s.data.drop i)) else none

/-- Splitting a character list at every occurrence of `c`; always yields at
least one (possibly empty) group, matching Go `strings.Split` with a
one-character separator. -/
def splitOnCharList (c : Char) : List Char → List (List Char)
  | [] => [[]]
  | a :: rest =>
    if a = c then [] :: splitOnCharList c rest
    else
      match splitOnCharList c rest with
      | [] => [[a]]
      | g :: gs => (a :: g) :: gs

/-- Go `strings.Split(s, sep)` for a one-character separator `c`. -/
def goSplit (s : String) (c : Char) : List String :=
  (splitOnCharList c s.data).map String.mk

/-- The `Parser` struct: `allFields`, `fields` (`none` models a nil slice),
and `fieldsIndex`.  The file path is passed separately as the file's
content, and the channel `Row` as its existence flag. -/
structure Parser where
  allFields : Bool
  fields : Option (List String)
  fieldsIndex : List Nat
deriving DecidableEq

/-- The loop body of `ParseAllFields`: scan lines until one whose first
seven bytes are `#fields`; split the rest (after byte 8) on tabs.  The
slices `line[0:7]` and `line[8:]` are taken without a length check, so a
short line panics (`oob`).  A file with no directive line yields the nil
(empty) field list with no error. -/
def findHeader : List String → GoRes (List String)
  | [] => GoRes.ok []
  | line :: rest =>
    match goSliceTo line 7 with
    | none => GoRes.oob
    | some pre =>
      if pre = "#fields" then
        match goSliceFrom line 8 with
        | none => GoRes.oob
        | some rem =>
          if rem = "" then GoRes.err "Fields row is malformed"
          else GoRes.ok (goSplit rem '\t')
      else findHeader rest

/-- `ParseAllFields`: open the file (propagating the open error) and scan
for the `#fields` directive line. -/
def ParseAllFields (file : Option (List String)) : GoRes (List String) :=
  match file with
  | none => GoRes.err "open " -- file-open error (path does not resolve)
  | some lines => findHeader lines

/-- The loop of `getIndex`: first position of `configField`, tracked by a
counter exactly as the Go `for i, field := range` loop does. -/
def getIndexFrom : List String → String → Nat → Option Nat
  | [], _, _ => none
  | f :: rest, cf, i => if f = cf then some i else getIndexFrom rest cf (i + 1)

/-- `getIndex`: index of `configField` in `allFields`, or an error (`none`
here; the message is built by `getIndexErr`). -/
def getIndex (allFields : List String) (configField : String) : Option Nat :=
  getIndexFrom allFields configField 0

/-- The error message `getIndex` returns for an unmatched field. -/
def getIndexErr (configField : String) : String :=
  "Couldn't match field defined in config with one in bro log, field is: "
    ++ configField

/-- The loop of `GetIndexOfFields`: resolve each selected field in order,
appending to the accumulated `fieldsIndex`; stop at the first unmatched
field, keeping the entries already appended. -/
def resolveFields (header : List String) :
    List String → List Nat → GoRes Unit × List Nat
  | [], acc => (GoRes.ok (), acc)
  | f :: rest, acc =>
    match getIndex header f with
    | some i => resolveFields header rest (acc ++ [i])
    | none => (GoRes.err (getIndexErr f), acc)

/-- `GetIndexOfFields`: run `ParseAllFields`, require a field selection,
then resolve each selected name, appending indices onto the parser's
existing `fieldsIndex`.  Returns the error together with the (possibly
mutated) parser, since the receiver is mutated in place. -/
def GetIndexOfFields (file : Option (List String)) (p : Parser) :
    GoRes Unit × Parser :=
  match ParseAllFields file with
  | GoRes.oob => (GoRes.oob, p)
  | GoRes.err m => (GoRes.err m, p)
  | GoRes.ok header =>
    match p.fields with
    | none => (GoRes.err "No specific fields defined for parsing", p)
    | some fs =>
      match resolveFields header fs p.fieldsIndex with
      | (r, idx) => (r, ⟨p.allFields, p.fields, idx⟩)

/-- The `Parse` transform-hook type: `(fields, values) → (values, error)`,
a failing call modelled by `none`. -/
def Parse : Type := List String → List String → Option (List String)

/-- The projection loop of `BufferRow` in selected-fields mode:
`entry[fieldIndex]` for each resolved index, with no bounds check, so an
index at or past the entry's length panics (`none`). -/
def projectEntry : List Nat → List String → Option (List String)
  | [], _ => some []
  | i :: rest, entry =>
    match entry.get? i with
    | none => none
    | some v =>
      match projectEntry rest entry with
      | none => none
      | some vs => some (v :: vs)

/-- The transform step of `BufferRow`: with no transform, or on a
transform error, the untransformed extraction is pushed; otherwise the
transformed one. -/
def applyTransform (pf : Option Parse) (fields entry : List String) :
    List String :=
  match pf with
  | none => entry
  | some t =>
    match t fields entry with
    | none => entry
    | some m => m

/-- One iteration of the `BufferRow` scan loop on one line.
`none` models a runtime panic; `some none` a line producing no row
(a `#` line, a degenerate line, or an all-fields column-count mismatch);
`some (some row)` the row pushed onto the channel.  Note `line[0]` is read
without a length check, so the empty line panics. -/
def processLine (allF : Bool) (fields : List String) (fieldsIndex : List Nat)
    (pf : Option Parse) (line : String) : Option (Option (List String)) :=
  match goIndex line 0 with
  | none => none
  | some c =>
    if c = '#' then some none
    else
      match goSliceFrom line 1 with
      | none => none
      | some rem =>
        if rem = "" then some none
        else
          if allF = false then
            match projectEntry fieldsIndex (goSplit line '\t') with
            | none => none
            | some parsedEntry =>
              some (some (applyTransform pf fields parsedEntry))
          else
            if fields.length ≠ (goSplit line '\t').length then some none
            else some (some (applyTransform pf fields (goSplit line '\t')))

/-- What one run of `BufferRow` did to the channel: the rows pushed in
order, whether `close(p.Row)` ran, and whether the run panicked. -/
structure RunOutcome where
  emitted : List (List String)
  closed : Bool
  panicked : Bool
deriving DecidableEq

/-- The scan loop of `BufferRow`: process each line; the channel is closed
only when the loop runs off the end of the file, and a panic aborts the
run with the channel left open. -/
def scanLoop (allF : Bool) (fields : List String) (fieldsIndex : List Nat)
    (pf : Option Parse) : List String → List (List String) → RunOutcome
  | [], acc => ⟨acc, true, false⟩
  | line :: rest, acc =>
    match processLine allF fields fieldsIndex pf line with
    | none => ⟨acc, false, true⟩
    | some none => scanLoop allF fields fieldsIndex pf rest acc
    | some (some row) => scanLoop allF fields fieldsIndex pf rest (acc ++ [row])

/-- `BufferRow`: guard the channel (`rowInit` is `p.Row != nil`) and the
field selection, resolve indices when not in all-fields mode, open the
file, then scan.  Every early return leaves the channel unclosed; only
the fall-through after the scan loop closes it. -/
def BufferRow (file : Option (List String)) (p : Parser) (rowInit : Bool)
    (pf : Option Parse) : RunOutcome × Parser :=
  if rowInit = false then (⟨[], false, false⟩, p)
  else
    match p.fields with
    | none => (⟨[], false, false⟩, p)
    | some fs =>
      if p.allFields = false then
        match GetIndexOfFields file p with
        | (GoRes.ok _, pNew) =>
          match file with
          | none => (⟨[], false, false⟩, pNew)
          | some lines => (scanLoop false fs pNew.fieldsIndex pf lines [], pNew)
        | (GoRes.err _, pNew) => (⟨[], false, false⟩, pNew)
        | (GoRes.oob, pNew) => (⟨[], false, true⟩, pNew)
      else
        match file with
        | none => (⟨[], false, false⟩, p)
        | some lines => (scanLoop true fs p.fieldsIndex pf lines [], p)

/-- A line the scan loop skips leaves the loop's state unchanged and the
scan moves on to the remaining lines. -/
theorem scanLoop_skip (allF : Bool) (fields : List String) (fidx : List Nat)
    (pf : Option Parse) (line : String) (rest : List String)
    (acc : List (List String))
    (h : processLine allF fields fidx pf line = some none) :
    scanLoop allF fields fidx pf (line :: rest) acc
      = scanLoop allF fields fidx pf rest acc := by
  simp only [scanLoop]
  rw [h]

/-- The scan loop either runs off the end of the file and closes the
channel, or panics and leaves it open: `closed` and `panicked` are
complementary. -/
theorem scanLoop_closed_iff (allF : Bool) (fields : List String)
    (fidx : List Nat) (pf : Option Parse) :
    ∀ (lines : List String) (acc : List (List String)),
    (scanLoop allF fields fidx pf lines acc).closed = true ↔
      (scanLoop allF fields fidx pf lines acc).panicked = false := by
  intro lines
  induction lines with
  | nil => intro acc; simp [scanLoop]
  | cons line rest ih =>
    intro acc
    simp only [scanLoop]
    cases processLine allF fields fidx pf line with
    | none => simp
    | some o =>
      cases o with
      | none => exact ih acc
      | some row => exact ih (acc ++ [row])

/-- A line with at least one byte can be sliced from byte 1 without a
panic. -/
theorem goSliceFrom_one (line : String) (c : Char)
    (h : goIndex line 0 = some c) :
    goSliceFrom line 1 = some (String.mk (line.data.drop 1)) := by
  unfold goIndex at h
  have hlen : 0 < line.data.length := (List.get?_eq_some.mp h).1
  unfold goSliceFrom
  rw [if_pos (Nat.succ_le_of_lt hlen)]

/-- A transform that fails on every input leaves the extraction unchanged,
exactly as supplying no transform does. -/
theorem applyTransform_fail (t : Parse) (fields entry : List String)
    (h : ∀ fs vs, t fs vs = none) :
    applyTransform (some t) fields entry = applyTransform none fields entry := by
  simp [applyTransform, h]

/-- Per line, an always-failing transform and no transform give the same
result. -/
theorem processLine_transform_fail (allF : Bool) (fields : List String)
    (fidx : List Nat) (t : Parse) (line : String)
    (h : ∀ fs vs, t fs vs = none) :
    processLine allF fields fidx (some t) line
      = processLine allF fields fidx none line := by
  simp only [processLine]
  repeat' split
  all_goals try rfl
  all_goals rw [applyTransform_fail t fields _ h]

/-- Over a whole scan, an always-failing transform and no transform give
the same result. -/
theorem scanLoop_transform_fail (allF : Bool) (fields : List String)
    (fidx : List Nat) (t : Parse) (h : ∀ fs vs, t fs vs = none) :
    ∀ (lines : List String) (acc : List (List String)),
    scanLoop allF fields fidx (some t) lines acc
      = scanLoop allF fields fidx none lines acc := by
  intro lines
  induction lines with
  | nil => intro acc; rfl
  | cons line rest ih =>
    intro acc
    simp only [scanLoop]
    rw [processLine_transform_fail allF fields fidx t line h]
    cases processLine allF fields fidx none line with
    | none => rfl
    | some o =>
      cases o with
      | none => exact ih acc
      | some row => exact ih (acc ++ [row])

/-- Resolving a block of field names that all match appends their indices
in order and continues with the remaining names. -/
theorem resolveFields_append_matched (header : List String) :
    ∀ (pre l : List String) (acc : List Nat),
    (∀ f ∈ pre, getIndex header f ≠ none) →
    resolveFields header (pre ++ l) acc
      = resolveFields header l (acc ++ List.filterMap (getIndex header) pre) := by
  intro pre
  induction pre with
  | nil => intro l acc _; simp
  | cons f pre ih =>
    intro l acc hall
    have hf : getIndex header f ≠ none := hall f (List.mem_cons_self f pre)
    cases hg : getIndex header f with
    | none => exact absurd hg hf
    | some i =>
      rw [List.cons_append]
      simp only [resolveFields, hg, List.append_eq]
      rw [ih l (acc ++ [i]) (fun g hg2 => hall g (List.mem_cons_of_mem f hg2))]
      simp [List.filterMap_cons, hg, List.append_assoc]

/-- Resolving a selection whose first name is unmatched fails at once,
keeping the accumulated indices. -/
theorem resolveFields_err_head (header : List String) (bad : String)
    (rest : List String) (acc : List Nat) (h : getIndex header bad = none) :
    resolveFields header (bad :: rest) acc
      = (GoRes.err (getIndexErr bad), acc) := by
  simp only [resolveFields, h]

/-- The projection loop succeeds exactly when every resolved index is in
bounds for the entry; there is no skipping path. -/
theorem projectEntry_some_iff (entry : List String) :
    ∀ (fidx : List Nat),
    (∃ vs, projectEntry fidx entry = some vs) ↔
      (∀ i ∈ fidx, i < entry.length) := by
  intro fidx
  induction fidx with
  | nil => simp [projectEntry]
  | cons i rest ih =>
    simp only [projectEntry]
    cases hg : entry.get? i with
    | none =>
      have hlen : entry.length ≤ i := List.get?_eq_none.mp hg
      constructor
      · rintro ⟨vs, hvs⟩
        cases hvs
      · intro hall
        exact absurd (hall i (List.mem_cons_self i rest)) (by omega)
    | some v =>
      have hilen : i < entry.length := (List.get?_eq_some.mp hg).1
      cases hp : projectEntry rest entry with
      | none =>
        constructor
        · rintro ⟨vs, hvs⟩
          cases hvs
        · intro hall
          rcases ih.mpr (fun j hj => hall j (List.mem_cons_of_mem i hj)) with
            ⟨vs, hvs⟩
          rw [hp] at hvs
          cases hvs
      | some vs0 =>
        constructor
        · intro _
          intro j hj
          rcases List.mem_cons.mp hj with hj0 | hj'
          · rw [hj0]; exact hilen
          · exact (ih.mp ⟨vs0, hp⟩) j hj'
        · intro _
          exact ⟨v :: vs0, rfl⟩

/-- C1: on the file with header line `#fields\ta\tb\tc` and data rows
`1\t2\t3` and `4\t5\t6`, a selected-fields parser for `["a", "c"]` with an
initialized channel emits exactly `["1", "3"]` then `["4", "6"]` and then
closes the channel, without panicking. -/
theorem C1_end_to_end :
    BufferRow (some ["#fields\ta\tb\tc", "1\t2\t3", "4\t5\t6"])
      ⟨false, some ["a", "c"], []⟩ true none
      = (⟨[["1", "3"], ["4", "6"]], true, false⟩,
         ⟨false, some ["a", "c"], [0, 2]⟩) := by decide

/-- C5 (code bug): the directive-prefix compare `line[0:7]` and the
remainder slice `line[8:]` are taken with no length check, so scanning a
file whose first line is empty, or exactly `#fields` with nothing after
it, hits an index-out-of-range panic instead of completing; the panic
propagates through a `BufferRow` run. -/
theorem C5_header_scan_oob :
    ParseAllFields (some [""]) = GoRes.oob ∧
    ParseAllFields (some ["ab"]) = GoRes.oob ∧
    ParseAllFields (some ["#fields"]) = GoRes.oob ∧
    BufferRow (some [""]) ⟨false, some ["a"], []⟩ true none
      = (⟨[], false, true⟩, ⟨false, some ["a"], []⟩) := by decide

/-- C2 (counterexample): resolving `["a", "z"]` against header `a\tb`
fails with the NotFound message naming `z`, but the parser's
resolved-index state is NOT the same after the failed call: the index of
`a` has been appended to `fieldsIndex`. -/
theorem C2_counterexample :
    (GetIndexOfFields (some ["#fields\ta\tb"])
        ⟨false, some ["a", "z"], []⟩).1 = GoRes.err (getIndexErr "z") ∧
    (GetIndexOfFields (some ["#fields\ta\tb"])
        ⟨false, some ["a", "z"], []⟩).2.fieldsIndex = [0] ∧
    (GetIndexOfFields (some ["#fields\ta\tb"])
        ⟨false, some ["a", "z"], []⟩).2
      ≠ (⟨false, some ["a", "z"], []⟩ : Parser) := by decide

/-- C6 (counterexample): a file containing an empty line makes the scan
fail: `line[0]` is read with no length check, so the run panics, emits
nothing for the file, and leaves the channel open. -/
theorem C6_counterexample :
    (BufferRow (some ["#fields\ta", "", "1"])
        ⟨true, some ["a"], []⟩ true none).1
      = ⟨[], false, true⟩ := by decide

/-- C7 (counterexample): with an existing channel, every early abort of
`BufferRow` returns WITHOUT closing the channel — shown here for a
missing field selection, a failed index resolution, and a file-open
error — contradicting close-exactly-once on abort. -/
theorem C7_counterexample :
    (BufferRow (some ["1\t2"]) ⟨true, none, []⟩ true none).1.closed
        = false ∧
    (BufferRow (some ["#fields\ta", "1"])
        ⟨false, some ["z"], []⟩ true none).1.closed = false ∧
    (BufferRow none ⟨true, some ["a"], []⟩ true none).1.closed
        = false := by decide

/-- C8 (counterexample): running `BufferRow` twice on the same file with
the same selected-fields configuration does not emit the same sequence:
`GetIndexOfFields` appends to the already-populated `fieldsIndex`, so the
second run projects every selected column twice. -/
theorem C8_counterexample :
    (BufferRow (some ["#fields\ta\tb\tc", "1\t2\t3", "4\t5\t6"])
        ⟨false, some ["a", "c"], []⟩ true none).1.emitted
      = [["1", "3"], ["4", "6"]] ∧
    (BufferRow (some ["#fields\ta\tb\tc", "1\t2\t3", "4\t5\t6"])
        (BufferRow (some ["#fields\ta\tb\tc", "1\t2\t3", "4\t5\t6"])
          ⟨false, some ["a", "c"], []⟩ true none).2 true none).1.emitted
      = [["1", "3", "1", "3"], ["4", "6", "4", "6"]] ∧
    (BufferRow (some ["#fields\ta\tb\tc", "1\t2\t3", "4\t5\t6"])
        ⟨false, some ["a", "c"], []⟩ true none).1.emitted
      ≠ (BufferRow (some ["#fields\ta\tb\tc", "1\t2\t3", "4\t5\t6"])
          (BufferRow (some ["#fields\ta\tb\tc", "1\t2\t3", "4\t5\t6"])
            ⟨false, some ["a", "c"], []⟩ true none).2 true none).1.emitted := by
  decide

/-- C9 (counterexample): in all-fields mode with no field selection ever
set, `BufferRow` does NOT proceed to scan and emit: it returns at the
`p.fields == nil` guard with nothing emitted and the channel left open,
while the same file with a selection set emits a row and closes. -/
theorem C9_counterexample :
    BufferRow (some ["#fields\ta\tb", "1\t2"]) ⟨true, none, []⟩ true none
      = (⟨[], false, false⟩, ⟨true, none, []⟩) ∧
    (BufferRow (some ["#fields\ta\tb", "1\t2"])
        ⟨true, some ["a", "b"], []⟩ true none).1
      = ⟨[["1", "2"]], true, false⟩ := by decide

/-- C2 (amended): for every header and every selection containing a name
absent from the header, `GetIndexOfFields` fails on the first unmatched
name with an error naming that field, and no row is scanned or emitted;
however, the indices of the names preceding the failure remain appended
to the parser's `fieldsIndex`, so the resolved-index state is not
restored. -/
theorem C2_amended (file : Option (List String)) (p : Parser)
    (header : List String) (pre : List String) (bad : String)
    (rest : List String) (pf : Option Parse)
    (h1 : ParseAllFields file = GoRes.ok header)
    (h2 : p.fields = some (pre ++ bad :: rest))
    (h3 : ∀ f ∈ pre, getIndex header f ≠ none)
    (h4 : getIndex header bad = none)
    (h5 : p.allFields = false) :
    (GetIndexOfFields file p).1 = GoRes.err (getIndexErr bad) ∧
    (GetIndexOfFields file p).2.fieldsIndex
      = p.fieldsIndex ++ List.filterMap (getIndex header) pre ∧
    (BufferRow file p true pf).1 = ⟨[], false, false⟩ := by
  have hpair : GetIndexOfFields file p
      = (GoRes.err (getIndexErr bad),
         ⟨p.allFields, p.fields,
          p.fieldsIndex ++ List.filterMap (getIndex header) pre⟩) := by
    simp only [GetIndexOfFields, h1, h2]
    rw [resolveFields_append_matched header pre (bad :: rest) p.fieldsIndex h3,
        resolveFields_err_head header bad rest _ h4]
  refine ⟨by rw [hpair], by rw [hpair], ?_⟩
  simp only [BufferRow, h2, h5, hpair]
  rfl

/-- C2 (witness): the amended statement at header `a\tb` and selection
`["a", "z"]`. -/
theorem C2_amended_witness :
    (GetIndexOfFields (some ["#fields\ta\tb"])
        ⟨false, some ["a", "z"], []⟩).1 = GoRes.err (getIndexErr "z") ∧
    (GetIndexOfFields (some ["#fields\ta\tb"])
        ⟨false, some ["a", "z"], []⟩).2.fieldsIndex
      = [] ++ List.filterMap (getIndex ["a", "b"]) ["a"] ∧
    (BufferRow (some ["#fields\ta\tb"])
        ⟨false, some ["a", "z"], []⟩ true none).1 = ⟨[], false, false⟩ :=
  C2_amended (some ["#fields\ta\tb"]) ⟨false, some ["a", "z"], []⟩
    ["a", "b"] ["a"] "z" [] none (by decide) rfl (by decide) (by decide) rfl

/-- C3: in all-fields mode, a data line (non-empty, not starting with the
marker) whose tab-separated value count differs from the field list's
length is skipped — it contributes no row — and the scan continues with
the remaining lines. -/
theorem C3_mismatch_skipped (fields : List String) (fidx : List Nat)
    (pf : Option Parse) (line : String) (c : Char) (rest : List String)
    (acc : List (List String))
    (h0 : goIndex line 0 = some c) (hc : c ≠ '#')
    (hlen : (goSplit line '\t').length ≠ fields.length) :
    processLine true fields fidx pf line = some none ∧
    scanLoop true fields fidx pf (line :: rest) acc
      = scanLoop true fields fidx pf rest acc := by
  have hproc : processLine true fields fidx pf line = some none := by
    have hs := goSliceFrom_one line c h0
    simp only [processLine, h0, hs, if_neg hc]
    by_cases hrem : String.mk (line.data.drop 1) = ""
    · rw [if_pos hrem]
    · rw [if_neg hrem, if_neg (by decide : ¬(true = false)),
        if_pos (Ne.symm hlen)]
  exact ⟨hproc, scanLoop_skip true fields fidx pf line rest acc hproc⟩

/-- C3 (witness): row `1\t2\t3` against a two-column field list is
skipped and the scan moves on. -/
theorem C3_mismatch_skipped_witness :
    processLine true ["a", "b"] [] none "1\t2\t3" = some none ∧
    scanLoop true ["a", "b"] [] none ("1\t2\t3" :: ["x\ty"]) []
      = scanLoop true ["a", "b"] [] none ["x\ty"] [] :=
  C3_mismatch_skipped ["a", "b"] [] none "1\t2\t3" '1' ["x\ty"] []
    (by decide) (by decide) (by decide)

/-- C4: a transform that fails on every input produces exactly the same
run — same emitted rows, same channel state, same parser — as supplying
no transform at all: a failing transform's row falls back to the
untransformed extraction and is never dropped. -/
theorem C4_transform_fallback (file : Option (List String)) (p : Parser)
    (rowInit : Bool) (t : Parse) (h : ∀ fs vs, t fs vs = none) :
    BufferRow file p rowInit (some t) = BufferRow file p rowInit none := by
  cases hpf : p.fields with
  | none => simp [BufferRow, hpf]
  | some fs =>
    by_cases hr : rowInit = false
    · simp [BufferRow, hr]
    · by_cases ha : p.allFields = false
      · rcases hg : GetIndexOfFields file p with ⟨r, pNew⟩
        cases r with
        | ok u =>
          cases file with
          | none => simp [BufferRow, hpf, hr, ha, hg]
          | some lines =>
            simp [BufferRow, hpf, hr, ha, hg,
              scanLoop_transform_fail false fs pNew.fieldsIndex t h]
        | err m => simp [BufferRow, hpf, hr, ha, hg]
        | oob => simp [BufferRow, hpf, hr, ha, hg]
      · cases file with
        | none => simp [BufferRow, hpf, hr, ha]
        | some lines =>
          simp [BufferRow, hpf, hr, ha,
            scanLoop_transform_fail true fs p.fieldsIndex t h]

/-- C4 (witness): the always-failing transform on a concrete all-fields
run equals the transform-free run. -/
theorem C4_transform_fallback_witness :
    BufferRow (some ["#fields\ta", "v"]) ⟨true, some ["a"], []⟩ true
        (some (fun _ _ => none))
      = BufferRow (some ["#fields\ta", "v"]) ⟨true, some ["a"], []⟩ true
          none :=
  C4_transform_fallback (some ["#fields\ta", "v"]) ⟨true, some ["a"], []⟩
    true (fun _ _ => none) (fun _ _ => rfl)

/-- C6 (amended): a line equal to just the marker character, or a
non-empty line whose remainder after the first character is empty, is
skipped by the scan loop without a failure; the empty line, however, is
NOT tolerated — reading `line[0]` panics (see the counterexample). -/
theorem C6_amended (allF : Bool) (fields : List String) (fidx : List Nat)
    (pf : Option Parse) (line : String) (rest : List String)
    (acc : List (List String))
    (h : line = "#" ∨ (line ≠ "" ∧ goSliceFrom line 1 = some "")) :
    processLine allF fields fidx pf line = some none ∧
    scanLoop allF fields fidx pf (line :: rest) acc
      = scanLoop allF fields fidx pf rest acc := by
  have hproc : processLine allF fields fidx pf line = some none := by
    rcases h with h | ⟨hne, hrem⟩
    · subst h
      have hgi : goIndex "#" 0 = some '#' := by decide
      simp [processLine, hgi]
    · have h1le : 1 ≤ line.data.length := by
        by_contra hb
        unfold goSliceFrom at hrem
        rw [if_neg hb] at hrem
        cases hrem
      obtain ⟨c, hc⟩ : ∃ c, goIndex line 0 = some c := by
        unfold goIndex
        cases hd : line.data with
        | nil => rw [hd] at h1le; simp at h1le
        | cons a as => exact ⟨a, rfl⟩
      by_cases hch : c = '#'
      · simp only [processLine, hc, if_pos hch]
      · simp only [processLine, hc, if_neg hch, hrem]
        simp
  exact ⟨hproc, scanLoop_skip allF fields fidx pf line rest acc hproc⟩

/-- C6 (witness): the single-character line `x` (empty remainder) is
skipped and the scan continues. -/
theorem C6_amended_witness :
    processLine true ["a"] [] none "x" = some none ∧
    scanLoop true ["a"] [] none ("x" :: ["y\tz"]) []
      = scanLoop true ["a"] [] none ["y\tz"] [] :=
  C6_amended true ["a"] [] none "x" ["y\tz"] []
    (Or.inr ⟨by decide, by decide⟩)

/-- C7 (amended): with an existing channel, `BufferRow` closes the
channel exactly when the producer reaches the end of the file without a
panic: the run closes the channel iff it did not panic, a field selection
was present, the file opened, and (in selected-fields mode) index
resolution succeeded.  Early aborts therefore leave the channel open. -/
theorem C7_amended (file : Option (List String)) (p : Parser)
    (pf : Option Parse) :
    (BufferRow file p true pf).1.closed = true ↔
      ((BufferRow file p true pf).1.panicked = false ∧ p.fields ≠ none ∧
        file ≠ none ∧
        (p.allFields = false → (GetIndexOfFields file p).1 = GoRes.ok ())) := by
  cases hpf : p.fields with
  | none => simp [BufferRow, hpf]
  | some fs =>
    by_cases ha : p.allFields = false
    · rcases hg : GetIndexOfFields file p with ⟨r, pNew⟩
      cases r with
      | ok u =>
        cases u
        cases file with
        | none => simp [BufferRow, hpf, ha, hg]
        | some lines => simp [BufferRow, hpf, ha, hg, scanLoop_closed_iff]
      | err m => simp [BufferRow, hpf, ha, hg]
      | oob => simp [BufferRow, hpf, ha, hg]
    · cases file with
      | none => simp [BufferRow, hpf, ha]
      | some lines => simp [BufferRow, hpf, ha, scanLoop_closed_iff]

/-- C7 (witness): the amended statement on a run that reaches file
exhaustion. -/
theorem C7_amended_witness :
    (BufferRow (some ["#fields\ta", "1"]) ⟨true, some ["a"], []⟩ true
        none).1.closed = true ↔
      ((BufferRow (some ["#fields\ta", "1"]) ⟨true, some ["a"], []⟩ true
          none).1.panicked = false ∧
        (⟨true, some ["a"], []⟩ : Parser).fields ≠ none ∧
        (some ["#fields\ta", "1"] : Option (List String)) ≠ none ∧
        ((⟨true, some ["a"], []⟩ : Parser).allFields = false →
          (GetIndexOfFields (some ["#fields\ta", "1"])
              ⟨true, some ["a"], []⟩).1 = GoRes.ok ())) :=
  C7_amended (some ["#fields\ta", "1"]) ⟨true, some ["a"], []⟩ none

/-- C8 (amended): in all-fields mode `BufferRow` leaves the parser's
configuration untouched, so running it twice on an unmodified file with
an unmodified configuration emits identical sequences; in selected-fields
mode this fails (see the counterexample) because index resolution appends
to the already-populated index list. -/
theorem C8_amended (file : Option (List String)) (p : Parser)
    (rowInit : Bool) (pf : Option Parse) (h : p.allFields = true) :
    (BufferRow file p rowInit pf).2 = p ∧
    (BufferRow file (BufferRow file p rowInit pf).2 rowInit pf).1
      = (BufferRow file p rowInit pf).1 := by
  have h2 : (BufferRow file p rowInit pf).2 = p := by
    cases hpf : p.fields with
    | none => simp [BufferRow, hpf]
    | some fs =>
      by_cases hr : rowInit = false
      · simp [BufferRow, hr]
      · cases file with
        | none => simp [BufferRow, hpf, hr, h]
        | some lines => simp [BufferRow, hpf, hr, h]
  exact ⟨h2, by rw [h2]⟩

/-- C8 (witness): an all-fields run repeated on the same file emits the
same outcome. -/
theorem C8_amended_witness :
    (BufferRow (some ["#fields\ta\tb", "1\t2"]) ⟨true, some ["a", "b"], []⟩
        true none).2 = (⟨true, some ["a", "b"], []⟩ : Parser) ∧
    (BufferRow (some ["#fields\ta\tb", "1\t2"])
        (BufferRow (some ["#fields\ta\tb", "1\t2"])
          ⟨true, some ["a", "b"], []⟩ true none).2 true none).1
      = (BufferRow (some ["#fields\ta\tb", "1\t2"])
          ⟨true, some ["a", "b"], []⟩ true none).1 :=
  C8_amended (some ["#fields\ta\tb", "1\t2"]) ⟨true, some ["a", "b"], []⟩
    true none rfl

/-- C9 (amended): `BufferRow` checks the channel first — with no channel
it returns untouched, emitting nothing and raising no error — and then
requires a field selection in BOTH modes: in all-fields mode with no
selection ever set it likewise logs and returns without scanning. -/
theorem C9_amended (file : Option (List String)) (p : Parser)
    (pf : Option Parse) :
    BufferRow file p false pf = (⟨[], false, false⟩, p) ∧
    (p.fields = none → BufferRow file p true pf = (⟨[], false, false⟩, p)) := by
  constructor
  · simp [BufferRow]
  · intro h
    simp [BufferRow, h]

/-- C9 (witness): the amended statement with no channel and with a nil
selection in all-fields mode. -/
theorem C9_amended_witness :
    BufferRow (some ["#fields\ta\tb", "3\t4"]) ⟨true, none, []⟩ false none
      = (⟨[], false, false⟩, ⟨true, none, []⟩) ∧
    BufferRow (some ["#fields\ta\tb", "3\t4"]) ⟨true, none, []⟩ true none
      = (⟨[], false, false⟩, ⟨true, none, []⟩) :=
  ⟨(C9_amended (some ["#fields\ta\tb", "3\t4"]) ⟨true, none, []⟩ none).1,
   (C9_amended (some ["#fields\ta\tb", "3\t4"]) ⟨true, none, []⟩ none).2 rfl⟩

/-- C10: in selected-fields mode the scan loop applies no column-count
check to a data line: it never skips it, and it produces a row without an
out-of-bounds panic exactly when every resolved index is strictly below
the line's tab-separated value count. -/
theorem C10_no_count_check (fields : List String) (fidx : List Nat)
    (pf : Option Parse) (line : String) (c : Char)
    (h0 : goIndex line 0 = some c) (hc : c ≠ '#')
    (hrem : goSliceFrom line 1 ≠ some "") :
    processLine false fields fidx pf line ≠ some none ∧
    ((∃ row, processLine false fields fidx pf line = some (some row)) ↔
      ∀ i ∈ fidx, i < (goSplit line '\t').length) := by
  have hs := goSliceFrom_one line c h0
  have hrem' : ¬(String.mk (line.data.drop 1) = "") := by
    intro he
    exact hrem (by rw [hs, he])
  rw [List.drop_one] at hrem'
  cases hp : projectEntry fidx (goSplit line '\t') with
  | none =>
    have hplr : processLine false fields fidx pf line = none := by
      simp [processLine, h0, hs, hc, hrem', hp]
    constructor
    · rw [hplr]
      intro hx
      cases hx
    · rw [hplr]
      constructor
      · rintro ⟨row, hrow⟩
        cases hrow
      · intro hall
        rcases (projectEntry_some_iff (goSplit line '\t') fidx).mpr hall with
          ⟨vs, hvs⟩
        rw [hp] at hvs
        cases hvs
  | some pe =>
    have hplr : processLine false fields fidx pf line
        = some (some (applyTransform pf fields pe)) := by
      simp [processLine, h0, hs, hc, hrem', hp]
    constructor
    · rw [hplr]
      intro hx
      simp at hx
    · rw [hplr]
      constructor
      · intro _
        exact (projectEntry_some_iff (goSplit line '\t') fidx).mp ⟨pe, hp⟩
      · intro _
        exact ⟨applyTransform pf fields pe, rfl⟩

/-- C10 (witness): with resolved indices `[0, 2]`, the two-column row
`1\t2` is not skipped but panics, and the three-column row satisfies the
bound condition. -/
theorem C10_no_count_check_witness :
    processLine false ["a", "c"] [0, 2] none "1\t2\t3" ≠ some none ∧
    ((∃ row, processLine false ["a", "c"] [0, 2] none "1\t2\t3"
        = some (some row)) ↔
      ∀ i ∈ [0, 2], i < (goSplit "1\t2\t3" '\t').length) :=
  C10_no_count_check ["a", "c"] [0, 2] none "1\t2\t3" '1'
    (by decide) (by decide) (by decide)
